import Mathlib

/-!
Verification of the om-txt-reader core (sidecar persistence, document session,
debounced progress writes) against its natural-language specification.

The embedding mirrors the TypeScript source:
* `bookConfig.ts` — `BookConfigManager` (sidecar path derivation, progress and
  chapter-pattern updates, directory listing);
* `extension.ts` — `TxtReaderProvider` (session navigation, chapter scan,
  search, and the debounced progress-save timer).

File paths are modelled by their `path.dirname` / `path.basename`
decomposition (`SrcPath`): Node's `path.join dir name` for a slash-free `name`
is injective in both components, so path equality coincides with `SrcPath`
equality.  Filesystem reads and the sidecar store are abstracted as explicit
inputs (`loadCfg` functions, `DirEntry` lists); wall-clock instants are `Nat`
milliseconds (ISO-8601 timestamps order like the instants they denote).
-/

namespace AReader

/-! ### JavaScript string primitives used by the source -/

/-- The character set of JavaScript `\s` (which is also exactly the set that
`String.prototype.trim` removes). -/
def jsWSList : List Char :=
  [' ', '\t', '\n', '\r', '\x0b', '\x0c', '\u00a0', '\u1680', '\u2000',
   '\u2001', '\u2002', '\u2003', '\u2004', '\u2005', '\u2006', '\u2007',
   '\u2008', '\u2009', '\u200a', '\u2028', '\u2029', '\u202f', '\u205f',
   '\u3000', '\ufeff']

def jsWS (c : Char) : Bool := jsWSList.contains c

/-- JavaScript `String.prototype.trim`: strip `\s` characters from both ends. -/
def jsTrim (s : String) : String :=
  ⟨((s.data.dropWhile jsWS).reverse.dropWhile jsWS).reverse⟩

/-- Substring containment on character lists: some suffix of `hay` starts with
`needle`. -/
def containsSub (needle : List Char) : List Char → Bool
  | [] => needle.isPrefixOf []
  | c :: t => needle.isPrefixOf (c :: t) || containsSub needle t

/-- JavaScript `s.includes(term)`: case-sensitive literal substring test. -/
def jsIncludes (s term : String) : Bool := containsSub term.data s.data

/-- JavaScript `s.endsWith(suffix)` (case-sensitive). -/
def strEndsWith (s suffixStr : String) : Bool := suffixStr.data.isSuffixOf s.data

/-! ### Sidecar path derivation (`bookConfig.ts`, `getConfigPath`) -/

def docSuffix : String := ".txt"

def sidecarSuffix : String := ".json"

/-- A file path, split as Node's `path.dirname` / `path.basename` would. -/
structure SrcPath where
  dir : String
  name : String
deriving DecidableEq, Repr

/-- Node `path.basename(p, ext)` applied to a bare file name: the extension is
removed only when it is a proper suffix (Node keeps the name intact when the
whole name equals the extension). -/
def basenameMinus (name ext : String) : String :=
  if name ≠ ext ∧ strEndsWith name ext then
    ⟨name.data.take (name.data.length - ext.data.length)⟩
  else name

/-- `BookConfigManager.getConfigPath`: same directory, `path.basename(p, '.txt')`
with `.json` appended. -/
def getConfigPath (p : SrcPath) : SrcPath :=
  ⟨p.dir, basenameMinus p.name docSuffix ++ sidecarSuffix⟩

/-- Index of the last `'.'` in a name, ignoring a dot in first position —
the start of the Node-style extension (`path.extname`).  This formalises the
spec's notion of a file's "base name" / "extension"; it is not itself code of
the repository. -/
def lastDotIdx (cs : List Char) : Option Nat :=
  (List.range cs.length).foldl
    (fun acc i => if 1 ≤ i ∧ cs.getD i ' ' = '.' then some i else acc) none

/-- The spec's "base name": the file name with its Node-style extension removed. -/
def stemOf (name : String) : String :=
  match lastDotIdx name.data with
  | some i => ⟨name.data.take i⟩
  | none => name

/-- The spec's "extension": Node-style `path.extname` of a bare file name. -/
def extnameOf (name : String) : String :=
  match lastDotIdx name.data with
  | some i => ⟨name.data.drop i⟩
  | none => ""

/-! ### The persisted record (`bookConfig.ts`, `BookConfig`) -/

structure BookConfig where
  filePath : SrcPath
  fileName : String
  progress : Int
  totalLines : Int
  lastReadTime : Nat
  chapterPattern : Option String
  bookmarks : Option (List Int)
deriving DecidableEq, Repr

/-- `BookConfigManager.updateProgress`: the record handed to `saveConfig`.
`existing` is the result of `loadConfig`; when absent a default is synthesised
(progress 0, the given `totalLines`, `lastReadTime` now); then `progress`,
`totalLines` and `lastReadTime` are overwritten. -/
def updateProgressConfig (existing : Option BookConfig) (p : SrcPath)
    (progress totalLines : Int) (now : Nat) : BookConfig :=
  let config := existing.getD ⟨p, p.name, 0, totalLines, now, none, none⟩
  { config with progress := progress, totalLines := totalLines, lastReadTime := now }

/-- `BookConfigManager.updateChapterPattern`: the record handed to `saveConfig`.
When no config exists one is synthesised with progress 0 and totalLines 0 (the
source stats the file but never reads its lines), then `chapterPattern` is set. -/
def updateChapterPatternConfig (existing : Option BookConfig) (p : SrcPath)
    (pat : String) (now : Nat) : BookConfig :=
  let config := existing.getD ⟨p, p.name, 0, 0, now, none, none⟩
  { config with chapterPattern := some pat }

/-! ### Directory listing (`bookConfig.ts`, `getAllBooksInDirectory`) -/

/-- One entry of `fs.promises.readdir` plus the `stat` data the source consults. -/
structure DirEntry where
  name : String
  isFile : Bool
  mtime : Nat
deriving DecidableEq, Repr

/-- The default config synthesised for a document with no sidecar:
progress 0, totalLines 0, modification time as `lastReadTime`. -/
def defaultBookConfig (dirPath fileName : String) (mtime : Nat) : BookConfig :=
  ⟨⟨dirPath, fileName⟩, fileName, 0, 0, mtime, none, none⟩

/-- The per-entry body of the `getAllBooksInDirectory` loop: `.txt` suffix
check, `isFile` check, then the loaded config or the synthesised default. -/
def bookOf (dirPath : String) (loadCfg : SrcPath → Option BookConfig)
    (e : DirEntry) : Option BookConfig :=
  if strEndsWith e.name docSuffix then
    if e.isFile then
      some ((loadCfg ⟨dirPath, e.name⟩).getD (defaultBookConfig dirPath e.name e.mtime))
    else none
  else none

def collectBooks (dirPath : String) (entries : List DirEntry)
    (loadCfg : SrcPath → Option BookConfig) : List BookConfig :=
  entries.filterMap (bookOf dirPath loadCfg)

/-- The comparator `(a, b) => Date(b.lastReadTime) - Date(a.lastReadTime)`:
most recently read first. -/
def byTimeDesc (a b : BookConfig) : Prop := b.lastReadTime ≤ a.lastReadTime

instance : DecidableRel byTimeDesc := fun a b => Nat.decLe b.lastReadTime a.lastReadTime

instance : IsTotal BookConfig byTimeDesc :=
  ⟨fun a b => (Nat.le_total b.lastReadTime a.lastReadTime).elim Or.inl Or.inr⟩

instance : IsTrans BookConfig byTimeDesc :=
  ⟨fun _ _ _ h1 h2 => Nat.le_trans h2 h1⟩

/-- `BookConfigManager.getAllBooksInDirectory`: collect configs for `.txt`
entries, then sort by `lastReadTime` descending (JS `Array.prototype.sort` is
stable; a stable insertion sort models it). -/
def getAllBooksInDirectory (dirPath : String) (entries : List DirEntry)
    (loadCfg : SrcPath → Option BookConfig) : List BookConfig :=
  List.insertionSort byTimeDesc (collectBooks dirPath entries loadCfg)

/-! ### Document session (`extension.ts`, `TxtReaderProvider`) -/

structure Chapter where
  name : String
  line : Nat
deriving DecidableEq, Repr

structure SearchResult where
  line : Nat
  content : String
deriving DecidableEq, Repr

/-- The session state of `TxtReaderProvider` relevant to navigation:
`lines` (from `content.split('\n')`), the cursor, and the chapter index.
`currentLine` is an `Int` because it is initialised unchecked from a stored
`progress` value. -/
structure Session where
  lines : List String
  currentLine : Int
  chapters : List Chapter
deriving DecidableEq, Repr

/-- `scrollUp`: `currentLine = Math.max(0, currentLine - step)`. -/
def scrollUp (step : Int) (s : Session) : Session :=
  { s with currentLine := max 0 (s.currentLine - step) }

/-- `scrollDown`: `currentLine = Math.min(lines.length - 1, currentLine + step)`. -/
def scrollDown (step : Int) (s : Session) : Session :=
  { s with currentLine := min ((s.lines.length : Int) - 1) (s.currentLine + step) }

/-- `jumpToLine`: set the cursor only when `0 <= line < lines.length`. -/
def jumpToLine (n : Int) (s : Session) : Session :=
  if 0 ≤ n ∧ n < (s.lines.length : Int) then { s with currentLine := n } else s

/-- `search`: for every line, in order, a result with trimmed content when the
raw line contains the term. -/
def search (term : String) (lines : List String) : List SearchResult :=
  lines.enum.filterMap fun p =>
    if jsIncludes p.2 term then some ⟨p.1, jsTrim p.2⟩ else none

/-- `scanChapters`, parametrised by the compiled pattern's `test` predicate:
for every line, in order, a chapter entry when the trimmed line matches. -/
def scanChapters (test : String → Bool) (lines : List String) : List Chapter :=
  lines.enum.filterMap fun p =>
    if test (jsTrim p.2) then some ⟨jsTrim p.2, p.1⟩ else none

/-! #### The default chapter pattern `^第[0-9一二三四五六七八九十百千]+[章节]\s+.+$`
as an explicit matcher.  JavaScript `.` matches everything except the four line
terminators; `\s` is `jsWS`; the pattern is anchored at both ends, so a string
matches exactly when it decomposes as
`'第' ++ (class chars)+ ++ ('章'|'节') ++ \s+ ++ (dot chars)+`. -/

/-- JavaScript `.` (no `s` flag): any character but a line terminator. -/
def dotChar (c : Char) : Bool :=
  !(c == '\n' || c == '\r' || c == '\u2028' || c == '\u2029')

/-- The character class `[0-9一二三四五六七八九十百千]`. -/
def chapterNumChar (c : Char) : Bool :=
  (decide ('0' ≤ c) && decide (c ≤ '9')) || "一二三四五六七八九十百千".data.contains c

/-- Does the list decompose as `\s* ++ .+`? -/
def wsThenDot : List Char → Bool
  | [] => false
  | c :: cs => (jsWS c && wsThenDot cs) || (dotChar c && cs.all dotChar)

/-- Does the list decompose as `\s+ ++ .+`? -/
def spacePlusDot : List Char → Bool
  | [] => false
  | c :: cs => jsWS c && wsThenDot cs

/-- Already inside the number class: more class characters, then `[章节]`
followed by `\s+.+`. -/
def afterNum : List Char → Bool
  | [] => false
  | c :: cs => ((c == '章' || c == '节') && spacePlusDot cs) || (chapterNumChar c && afterNum cs)

/-- `[0-9一二三四五六七八九十百千]+[章节]\s+.+$`. -/
def numPart : List Char → Bool
  | [] => false
  | c :: cs => chapterNumChar c && afterNum cs

/-- Full-string test of the default chapter pattern. -/
def defaultChapterTest (s : String) : Bool :=
  match s.data with
  | '第' :: rest => numPart rest
  | _ => false

/-! ### Debounced progress persistence (`updateProgress` / `saveProgressNow` /
`onDidDispose`)

Dispatch is single-threaded and run-to-completion, so the observable state is:
the in-memory cursor, the deadline of the pending `setTimeout` (if any), and
the sequence of persisted progress values.  Time is `Nat` milliseconds. -/

def quietMs : Nat := 2000

structure ReaderPersist where
  currentLine : Int
  pendingDeadline : Option Nat
  writes : List Int
deriving DecidableEq, Repr

/-- Deliver the pending timer if its deadline has been reached by instant `t`:
the callback runs `saveProgressNow`, persisting the current cursor. -/
def firePending (s : ReaderPersist) (t : Nat) : ReaderPersist :=
  match s.pendingDeadline with
  | some d =>
      if d ≤ t then
        { s with pendingDeadline := none, writes := s.writes ++ [s.currentLine] }
      else s
  | none => s

/-- `updateProgress(line)` dispatched at instant `t`: any expired timer has
already run; the cursor updates immediately; `clearTimeout` plus a fresh
`setTimeout(…, 2000)` leaves a single pending write at `t + quietMs`. -/
def reportProgress (s : ReaderPersist) (t : Nat) (line : Int) : ReaderPersist :=
  let s1 := firePending s t
  { s1 with currentLine := line, pendingDeadline := some (t + quietMs) }

/-- The `onDidDispose` handler at instant `t`: `saveProgressNow()` persists the
current cursor unconditionally, then `clearTimeout` drops the pending timer. -/
def closeSession (s : ReaderPersist) (t : Nat) : ReaderPersist :=
  let s1 := firePending s t
  { s1 with writes := s1.writes ++ [s1.currentLine], pendingDeadline := none }

/-- A fresh session: cursor from the loaded config, no timer, nothing persisted. -/
def initPersist (line0 : Int) : ReaderPersist := ⟨line0, none, []⟩

def runReports : ReaderPersist → List (Nat × Int) → ReaderPersist
  | s, [] => s
  | s, (t, l) :: rest => runReports (reportProgress s t l) rest

/-- Each `reportProgress` call arrives strictly within the quiet interval of
its predecessor. -/
def withinQuiet : List (Nat × Int) → Bool
  | [] => true
  | [_] => true
  | (t1, _) :: (t2, l2) :: rest =>
      decide (t2 < t1 + quietMs) && withinQuiet ((t2, l2) :: rest)

def lastEv : Nat × Int → List (Nat × Int) → Nat × Int
  | e, [] => e
  | _, e2 :: rest => lastEv e2 rest

/-! ## Helper lemmas -/

theorem filterMap_if_eq {α β : Type} (p : α → Bool) (g : α → β) (l : List α) :
    l.filterMap (fun a => if p a then some (g a) else none) = (l.filter p).map g := by
  induction l with
  | nil => rfl
  | cons x xs ih =>
    by_cases h : p x <;> simp [List.filterMap_cons, List.filter_cons, h, ih]

theorem containsSub_nil (hay : List Char) : containsSub [] hay = true := by
  cases hay <;> rfl

theorem strAppendCancelRight (a b c : String) (h : a ++ c = b ++ c) : a = b := by
  have hd : a.data ++ c.data = b.data ++ c.data := by
    rw [← String.data_append, ← String.data_append, h]
  exact String.ext (List.append_cancel_right hd)

theorem runReports_quiet (evs : List (Nat × Int)) :
    ∀ (e : Nat × Int) (s : ReaderPersist),
      withinQuiet (e :: evs) = true →
      (∀ d, s.pendingDeadline = some d → e.1 < d) →
      runReports s (e :: evs) =
        ⟨(lastEv e evs).2, some ((lastEv e evs).1 + quietMs), s.writes⟩ := by
  induction evs with
  | nil =>
    intro e s _ hd
    obtain ⟨t, l⟩ := e
    obtain ⟨cur, pend, ws⟩ := s
    cases pend with
    | none => rfl
    | some d =>
      have hlt : t < d := hd d rfl
      simp [runReports, reportProgress, firePending, lastEv, Nat.not_le.mpr hlt]
  | cons e2 rest ih =>
    intro e s hq hd
    obtain ⟨t, l⟩ := e
    obtain ⟨t2, l2⟩ := e2
    rw [withinQuiet] at hq
    simp only [Bool.and_eq_true, decide_eq_true_eq] at hq
    obtain ⟨hq1, hq2⟩ := hq
    have hrp : reportProgress s t l = ⟨l, some (t + quietMs), s.writes⟩ := by
      obtain ⟨cur, pend, ws⟩ := s
      cases pend with
      | none => rfl
      | some d =>
        have hlt : t < d := hd d rfl
        simp [reportProgress, firePending, Nat.not_le.mpr hlt]
    show runReports (reportProgress s t l) ((t2, l2) :: rest) = _
    rw [hrp]
    have hstep := ih (t2, l2) ⟨l, some (t + quietMs), s.writes⟩ hq2
      (by intro d hdq; injection hdq with h2; omega)
    simpa [lastEv] using hstep

theorem bookOf_eq_some (d : String) (load : SrcPath → Option BookConfig)
    (e : DirEntry) (b : BookConfig) :
    bookOf d load e = some b ↔
      strEndsWith e.name docSuffix = true ∧ e.isFile = true ∧
        b = (load ⟨d, e.name⟩).getD (defaultBookConfig d e.name e.mtime) := by
  unfold bookOf
  by_cases h1 : strEndsWith e.name docSuffix <;>
    by_cases h2 : e.isFile <;> simp [h1, h2, eq_comm]

/-! ## Claim theorems -/

/-- C1: for every session, the value persisted for a document's progress is the
argument of the most recent `reportProgress` call before the flush.  Given a
burst of calls each arriving within the quiet interval of its predecessor,
once the quiet interval elapses exactly one write has occurred, its value is
the last call's argument, and no further write is pending; and closing the
session at any instant before the quiet interval has elapsed persists exactly
that same value (flush-on-close). -/
theorem debounce_writes_last (line0 : Int) (e : Nat × Int) (evs : List (Nat × Int))
    (T tc : Nat)
    (hq : withinQuiet (e :: evs) = true)
    (hT : (lastEv e evs).1 + quietMs ≤ T)
    (htc : tc < (lastEv e evs).1 + quietMs) :
    (firePending (runReports (initPersist line0) (e :: evs)) T).writes
        = [(lastEv e evs).2] ∧
    (firePending (runReports (initPersist line0) (e :: evs)) T).pendingDeadline
        = none ∧
    (closeSession (runReports (initPersist line0) (e :: evs)) tc).writes
        = [(lastEv e evs).2] := by
  have hrun := runReports_quiet evs e (initPersist line0) hq
    (by intro d h; simp [initPersist] at h)
  rw [hrun]
  refine ⟨?_, ?_, ?_⟩ <;>
    simp [firePending, closeSession, initPersist, hT, Nat.not_le.mpr htc]

/-- Witness for C1: three calls (values 5, 7, 9) at 0 ms, 1000 ms and 1500 ms;
the timer flush at 3500 ms persists exactly `[9]`, and closing at 1600 ms
instead also persists exactly `[9]`. -/
theorem debounce_writes_last_witness :
    (firePending (runReports (initPersist 0) [(0, 5), (1000, 7), (1500, 9)]) 3500).writes
        = [(9 : Int)] ∧
    (firePending (runReports (initPersist 0) [(0, 5), (1000, 7), (1500, 9)]) 3500).pendingDeadline
        = none ∧
    (closeSession (runReports (initPersist 0) [(0, 5), (1000, 7), (1500, 9)]) 1600).writes
        = [(9 : Int)] :=
  debounce_writes_last 0 (0, 5) [(1000, 7), (1500, 9)] 3500 1600
    (by decide) (by decide) (by decide)

/-- C2, counterexample: `a.txt` and `a.md` in the same directory have the same
base name and different extensions, yet their derived sidecar paths differ
(`a.json` vs `a.md.json`), because the derivation strips only a `.txt` suffix
rather than the extension.  This refutes the claim's clause that same-base-name
different-extension paths in one directory always collide. -/
theorem sidecar_collision_cex :
    stemOf "a.txt" = stemOf "a.md" ∧ extnameOf "a.txt" ≠ extnameOf "a.md" ∧
    getConfigPath ⟨"/x", "a.txt"⟩ ≠ getConfigPath ⟨"/x", "a.md"⟩ := by
  refine ⟨by decide, by decide, by decide⟩

/-- C2, amended: the sidecar path is a pure function of the source path — same
directory, file name with a proper `.txt` suffix removed and `.json` appended.
Two sources with the same file name in different directories never collide.
Within one directory, two sources collide exactly when their names agree after
stripping a proper `.txt` suffix; in particular `a.txt` and `a` collide, while
same-base-name pairs with other extensions (such as `a.txt` / `a.md`) do not. -/
theorem sidecar_path_amended :
    (∀ p q : SrcPath, p.name = q.name → p.dir ≠ q.dir →
        getConfigPath p ≠ getConfigPath q) ∧
    (∀ d n1 n2 : String, getConfigPath ⟨d, n1⟩ = getConfigPath ⟨d, n2⟩ ↔
        basenameMinus n1 docSuffix = basenameMinus n2 docSuffix) ∧
    getConfigPath ⟨"/x", "a.txt"⟩ = getConfigPath ⟨"/x", "a"⟩ := by
  refine ⟨?_, ?_, by decide⟩
  · intro p q _ hd h
    apply hd
    have h2 : (getConfigPath p).dir = (getConfigPath q).dir := by rw [h]
    simpa [getConfigPath] using h2
  · intro d n1 n2
    constructor
    · intro h
      exact strAppendCancelRight _ _ sidecarSuffix (congrArg SrcPath.name h)
    · intro h
      show SrcPath.mk d (basenameMinus n1 docSuffix ++ sidecarSuffix)
          = SrcPath.mk d (basenameMinus n2 docSuffix ++ sidecarSuffix)
      rw [h]

/-- Witness for C2 (amended): `b.txt` under `/a` and under `/c` derive distinct
sidecar paths, and `a.txt` and `a` under `/x` derive the same one. -/
theorem sidecar_path_amended_witness :
    getConfigPath ⟨"/a", "b.txt"⟩ ≠ getConfigPath ⟨"/c", "b.txt"⟩ ∧
    getConfigPath ⟨"/x", "a.txt"⟩ = getConfigPath ⟨"/x", "a"⟩ :=
  ⟨sidecar_path_amended.1 ⟨"/a", "b.txt"⟩ ⟨"/c", "b.txt"⟩ rfl (by decide),
   sidecar_path_amended.2.2⟩

/-- C3, counterexample: session states with an out-of-range cursor are
constructible (resume initialises `currentLine` from the stored `progress`
unchecked), and there `scrollUp` does not clamp to `[0, totalLines-1]`: with
10 lines, cursor 100 and step 3, `scrollUp` yields 97, outside `[0, 9]`,
whereas the claimed clamp would give 9. -/
theorem scroll_clamp_cex :
    (scrollUp 3 ⟨List.replicate 10 "", 100, []⟩).currentLine = 97 ∧
    ¬ ((scrollUp 3 ⟨List.replicate 10 "", 100, []⟩).currentLine
        ≤ ((List.replicate 10 "").length : Int) - 1) := by
  refine ⟨by decide, by decide⟩

/-- C3, amended: `scrollUp` sets the cursor to `max 0 (currentLine - step)` and
`scrollDown` to `min (totalLines - 1) (currentLine + step)`; whenever the
cursor starts within `[0, totalLines-1]` and the step is nonnegative, both
results equal the step move clamped to `[0, totalLines-1]`, saturating at the
boundary: `scrollUp` at 0 and `scrollDown` at `totalLines - 1` leave the
cursor unchanged. -/
theorem scroll_saturates (s : Session) (step : Int)
    (hstep : 0 ≤ step) (hlo : 0 ≤ s.currentLine)
    (hhi : s.currentLine ≤ (s.lines.length : Int) - 1) :
    (scrollUp step s).currentLine
        = max 0 (min ((s.lines.length : Int) - 1) (s.currentLine - step)) ∧
    (scrollDown step s).currentLine
        = max 0 (min ((s.lines.length : Int) - 1) (s.currentLine + step)) ∧
    (s.currentLine = 0 → (scrollUp step s).currentLine = s.currentLine) ∧
    (s.currentLine = (s.lines.length : Int) - 1 →
        (scrollDown step s).currentLine = s.currentLine) := by
  simp only [scrollUp, scrollDown]
  refine ⟨?_, ?_, ?_, ?_⟩ <;> intros <;> omega

/-- Witness for C3 (amended): 10 lines, cursor 5, step 3. -/
theorem scroll_saturates_witness :
    (scrollUp 3 ⟨List.replicate 10 "", 5, []⟩).currentLine
        = max 0 (min (((List.replicate 10 "").length : Int) - 1) (5 - 3)) ∧
    (scrollDown 3 ⟨List.replicate 10 "", 5, []⟩).currentLine
        = max 0 (min (((List.replicate 10 "").length : Int) - 1) (5 + 3)) ∧
    ((5 : Int) = 0 → (scrollUp 3 ⟨List.replicate 10 "", 5, []⟩).currentLine = 5) ∧
    ((5 : Int) = ((List.replicate 10 "").length : Int) - 1 →
        (scrollDown 3 ⟨List.replicate 10 "", 5, []⟩).currentLine = 5) :=
  scroll_saturates ⟨List.replicate 10 "", 5, []⟩ 3 (by decide) (by decide) (by decide)

/-- C4: the chapter scan trims each line and appends a `Chapter` for every line
whose trimmed text matches the active pattern, in ascending line order (the
scan equals the order-preserving filter of the enumerated lines); and on
`["第一章 标题", "正文", "第二章 标题2"]` with the default pattern it yields
exactly `[⟨"第一章 标题", 0⟩, ⟨"第二章 标题2", 2⟩]`. -/
theorem scanChapters_spec :
    (∀ (test : String → Bool) (lines : List String),
        scanChapters test lines
          = ((lines.enum.filter fun p => test (jsTrim p.2)).map
              fun p => Chapter.mk (jsTrim p.2) p.1)) ∧
    scanChapters defaultChapterTest ["第一章 标题", "正文", "第二章 标题2"]
      = [⟨"第一章 标题", 0⟩, ⟨"第二章 标题2", 2⟩] := by
  refine ⟨fun test lines => ?_, by decide⟩
  unfold scanChapters
  exact filterMap_if_eq _ _ _

/-- C5: `jumpToLine n` with `n < 0` or `n ≥ totalLines` leaves the session
(and in particular `currentLine`) unchanged — the embedding is a total
function, so no error is produced — while `0 ≤ n < totalLines` sets
`currentLine = n`. -/
theorem jumpToLine_spec (s : Session) (n : Int) :
    ((n < 0 ∨ (s.lines.length : Int) ≤ n) → jumpToLine n s = s) ∧
    (0 ≤ n → n < (s.lines.length : Int) → (jumpToLine n s).currentLine = n) := by
  constructor
  · intro h
    unfold jumpToLine
    rw [if_neg]
    omega
  · intro h1 h2
    unfold jumpToLine
    rw [if_pos ⟨h1, h2⟩]

/-- Witness for C5: on a 3-line session, jumping to 5 and to -1 are no-ops and
jumping to 2 moves the cursor to 2. -/
theorem jumpToLine_spec_witness :
    jumpToLine 5 ⟨["a", "b", "c"], 0, []⟩ = ⟨["a", "b", "c"], 0, []⟩ ∧
    jumpToLine (-1) ⟨["a", "b", "c"], 0, []⟩ = ⟨["a", "b", "c"], 0, []⟩ ∧
    (jumpToLine 2 ⟨["a", "b", "c"], 0, []⟩).currentLine = 2 :=
  ⟨(jumpToLine_spec ⟨["a", "b", "c"], 0, []⟩ 5).1 (Or.inr (by decide)),
   (jumpToLine_spec ⟨["a", "b", "c"], 0, []⟩ (-1)).1 (Or.inl (by decide)),
   (jumpToLine_spec ⟨["a", "b", "c"], 0, []⟩ 2).2 (by decide) (by decide)⟩

/-- C6: search is a case-sensitive literal substring test on each raw line,
returning matches with trimmed content in ascending line order (the result
equals the order-preserving filter of the enumerated lines); on
`["abc", "xabcx", "def"]` the term `"abc"` yields lines 0 and 1 in that order,
and a non-matching term yields the empty sequence with reported count 0. -/
theorem search_spec :
    (∀ (term : String) (lines : List String),
        search term lines
          = ((lines.enum.filter fun p => jsIncludes p.2 term).map
              fun p => SearchResult.mk p.1 (jsTrim p.2))) ∧
    search "abc" ["abc", "xabcx", "def"] = [⟨0, "abc"⟩, ⟨1, "xabcx"⟩] ∧
    search "zzz" ["abc", "xabcx", "def"] = [] ∧
    (search "zzz" ["abc", "xabcx", "def"]).length = 0 := by
  refine ⟨fun term lines => ?_, by decide, by decide, by decide⟩
  unfold search
  exact filterMap_if_eq _ _ _

/-- C10: searching for the empty string matches every line (every string
contains the empty substring), so the result has one entry per line and the
reported match count equals the total line count. -/
theorem search_empty_term (lines : List String) :
    search "" lines = lines.enum.map (fun p => SearchResult.mk p.1 (jsTrim p.2)) ∧
    (search "" lines).length = lines.length := by
  have hinc : ∀ p : Nat × String, jsIncludes p.2 "" = true :=
    fun p => containsSub_nil p.2.data
  have h1 : search "" lines
      = lines.enum.map (fun p => SearchResult.mk p.1 (jsTrim p.2)) := by
    unfold search
    rw [filterMap_if_eq (fun p : Nat × String => jsIncludes p.2 "")
          (fun p => SearchResult.mk p.1 (jsTrim p.2))]
    rw [List.filter_eq_self.mpr (fun a _ => hinc a)]
  refine ⟨h1, ?_⟩
  rw [h1, List.length_map, List.enum_length]

/-- C7: `getAllBooksInDirectory` returns configs exactly for the directory
entries whose name ends in `.txt` under case-sensitive comparison,
synthesizing a default config from the file's modification time for entries
lacking one, and the result is sorted by `lastReadTime` descending; on a
directory holding `a.txt`, `b.md`, `c.TXT` with no sidecars it returns only
the synthesized config of `a.txt`. -/
theorem listDirectory_spec :
    (∀ d entries load, List.Sorted byTimeDesc (getAllBooksInDirectory d entries load)) ∧
    (∀ d entries load b, b ∈ getAllBooksInDirectory d entries load ↔
        ∃ e, e ∈ entries ∧ strEndsWith e.name docSuffix = true ∧ e.isFile = true ∧
          b = (load ⟨d, e.name⟩).getD (defaultBookConfig d e.name e.mtime)) ∧
    getAllBooksInDirectory "/lib"
        [⟨"a.txt", true, 111⟩, ⟨"b.md", true, 222⟩, ⟨"c.TXT", true, 333⟩]
        (fun _ => none)
      = [defaultBookConfig "/lib" "a.txt" 111] := by
  refine ⟨?_, ?_, by decide⟩
  · intro d entries load
    exact List.sorted_insertionSort byTimeDesc (collectBooks d entries load)
  · intro d entries load b
    rw [getAllBooksInDirectory,
        (List.perm_insertionSort byTimeDesc (collectBooks d entries load)).mem_iff,
        collectBooks, List.mem_filterMap]
    exact exists_congr fun e => by rw [bookOf_eq_some]

/-- C8: with no existing config, `updateChapterPattern` synthesizes a default
record with progress 0 and totalLines 0 — the derivation takes no file content
at all, so the true line count is never recomputed — then sets
`chapterPattern` to the given pattern and hands exactly this record to save. -/
theorem updateChapterPattern_defaults (p : SrcPath) (pat : String) (now : Nat) :
    updateChapterPatternConfig none p pat now
      = ⟨p, p.name, 0, 0, now, some pat, none⟩ := rfl

/-- C9: with an existing config, `updateProgress` writes back a record in which
only `progress`, `totalLines` and `lastReadTime` change; `filePath`,
`fileName`, `chapterPattern` and `bookmarks` are passed through unchanged. -/
theorem updateProgress_frame (c : BookConfig) (p : SrcPath)
    (progress totalLines : Int) (now : Nat) :
    (updateProgressConfig (some c) p progress totalLines now).progress = progress ∧
    (updateProgressConfig (some c) p progress totalLines now).totalLines = totalLines ∧
    (updateProgressConfig (some c) p progress totalLines now).lastReadTime = now ∧
    (updateProgressConfig (some c) p progress totalLines now).filePath = c.filePath ∧
    (updateProgressConfig (some c) p progress totalLines now).fileName = c.fileName ∧
    (updateProgressConfig (some c) p progress totalLines now).chapterPattern = c.chapterPattern ∧
    (updateProgressConfig (some c) p progress totalLines now).bookmarks = c.bookmarks :=
  ⟨rfl, rfl, rfl, rfl, rfl, rfl, rfl⟩

end AReader
